import Mathlib

/-!
Verification of the Routio message-description-language compiler
(`src/generator/parser.cpp`, the code generator `codegen.cpp`, and the
`gen` command line driver) against its natural-language specification.

The development is a shallow embedding: C++ functions are transcribed as
Lean functions over `List Char` / `String` / `Nat`.  `std::string` is a
byte sequence; identifiers produced by the lexer are ASCII, so a `String`
whose characters are mapped through `Char.toNat` gives exactly the byte
sequence the C++ code hashes.  Machine integers are modelled as `Nat`
with explicit `% 256` where the C++ truncates to `unsigned char`.
-/

set_option maxRecDepth 10000

namespace Routio

/-- Bytes of a string, as the C++ `std::string` holds them.  For the ASCII
strings produced by the lexer (identifiers, type names) `Char.toNat` is
exactly the byte value. -/
def strBytes (s : String) : List Nat := s.data.map Char.toNat

/-! ## TypeRegistry::computeHash (codegen.cpp lines 296-309)

```cpp
std::string TypeRegistry::computeHash(const std::string& content) const {
    unsigned char hash[16] = {0};
    for (size_t i = 0; i < content.size(); ++i) {
        hash[i % 16] ^= content[i];
    }
    std::ostringstream oss;
    oss << std::hex << std::setfill('0');
    for (int i = 0; i < 16; ++i) {
        oss << std::setw(2) << (int)hash[i];
    }
    return oss.str();
}
```
-/

/-- Minimal lowercase hexadecimal rendering of a number (at least one
digit), the way `operator<<` with `std::hex` renders a non-negative `int`.
`Nat.toDigits 16` uses the digits 0-9 followed by lowercase a-f, exactly
as iostreams do. -/
def toHexMin (n : Nat) : List Char := Nat.toDigits 16 n

/-- Field width 2 with fill character '0', as `std::setw(2)` with
`std::setfill('0')` pads. -/
def padTo2 (l : List Char) : List Char :=
  if l.length < 2 then List.replicate (2 - l.length) '0' ++ l else l

/-- One iteration of the hashing loop: `hash[i % 16] ^= content[i]`.
The `% 256` models the conversion of the xor result back to
`unsigned char`. -/
def accStep (acc : List Nat) (i b : Nat) : List Nat :=
  acc.set (i % 16) ((acc.getD (i % 16) 0) ^^^ (b % 256))

/-- The hashing loop, starting at byte index `i`. -/
def accGo (acc : List Nat) (i : Nat) : List Nat → List Nat
  | [] => acc
  | b :: rest => accGo (accStep acc i b) (i + 1) rest

/-- The 16-byte accumulator after folding all input bytes, starting from
all zeros. -/
def xorAccum (bytes : List Nat) : List Nat :=
  accGo (List.replicate 16 0) 0 bytes

/-- TypeRegistry::computeHash, on the byte sequence of its argument. -/
def computeHash (bytes : List Nat) : String :=
  ⟨(xorAccum bytes).flatMap (fun b => padTo2 (toHexMin b))⟩

/-- Specification-style accumulator: the xor of all bytes whose position
(counting from `i`) is congruent to `j` modulo 16. -/
def xorSel (i j : Nat) : List Nat → Nat
  | [] => 0
  | b :: rest => (if i % 16 = j then b % 256 else 0) ^^^ xorSel (i + 1) j rest

/-- The lowercase hexadecimal alphabet. -/
def hexAlphabet : List Char := ("0123456789abcdef").data

lemma accStep_length (acc : List Nat) (i b : Nat) :
    (accStep acc i b).length = acc.length := by
  simp [accStep]

lemma accGo_length (bytes : List Nat) :
    ∀ (acc : List Nat) (i : Nat), (accGo acc i bytes).length = acc.length := by
  induction bytes with
  | nil => intro acc i; rfl
  | cons b rest ih =>
      intro acc i
      simp only [accGo, ih, accStep_length]

lemma xorAccum_length (bytes : List Nat) : (xorAccum bytes).length = 16 := by
  simp [xorAccum, accGo_length]

lemma accStep_getD (acc : List Nat) (i b j : Nat)
    (hlen : acc.length = 16) (hj : j < 16) :
    (accStep acc i b).getD j 0 =
      acc.getD j 0 ^^^ (if i % 16 = j then b % 256 else 0) := by
  have hi : i % 16 < acc.length := by omega
  by_cases h : i % 16 = j
  · subst h
    simp [accStep, List.getD_eq_getElem?_getD, List.getElem?_set_self, hi]
  · simp [accStep, List.getD_eq_getElem?_getD, List.getElem?_set_ne h, h]

lemma accGo_getD (bytes : List Nat) :
    ∀ (acc : List Nat) (i j : Nat), acc.length = 16 → j < 16 →
      (accGo acc i bytes).getD j 0 = acc.getD j 0 ^^^ xorSel i j bytes := by
  induction bytes with
  | nil => intro acc i j _ _; simp [accGo, xorSel]
  | cons b rest ih =>
      intro acc i j hlen hj
      have hstep : (accStep acc i b).length = 16 := by
        rw [accStep_length]; exact hlen
      simp only [accGo, xorSel]
      rw [ih (accStep acc i b) (i + 1) j hstep hj,
        accStep_getD acc i b j hlen hj, Nat.xor_assoc]

lemma accStep_bound (acc : List Nat) (i b : Nat)
    (h : ∀ x ∈ acc, x < 256) : ∀ x ∈ accStep acc i b, x < 256 := by
  intro x hx
  rcases List.mem_or_eq_of_mem_set hx with hmem | heq
  · exact h x hmem
  · subst heq
    have h1 : acc.getD (i % 16) 0 < 2 ^ 8 := by
      rcases Nat.lt_or_ge (i % 16) acc.length with hlt | hge
      · rw [List.getD_eq_getElem?_getD, List.getElem?_eq_getElem hlt]
        exact h _ (List.getElem_mem hlt)
      · rw [List.getD_eq_getElem?_getD, List.getElem?_eq_none hge]
        simp
    have h2 : b % 256 < 2 ^ 8 := Nat.mod_lt _ (by norm_num)
    exact Nat.xor_lt_two_pow h1 h2

lemma accGo_bound (bytes : List Nat) :
    ∀ (acc : List Nat) (i : Nat), (∀ x ∈ acc, x < 256) →
      ∀ x ∈ accGo acc i bytes, x < 256 := by
  induction bytes with
  | nil => intro acc i h; exact h
  | cons b rest ih =>
      intro acc i h
      exact ih _ _ (accStep_bound acc i b h)

lemma xorAccum_bound (bytes : List Nat) : ∀ x ∈ xorAccum bytes, x < 256 := by
  refine accGo_bound bytes _ 0 ?_
  intro x hx
  rw [List.eq_of_mem_replicate hx]
  norm_num

lemma hexPair_length (n : Nat) (h : n < 256) :
    (padTo2 (toHexMin n)).length = 2 := by
  have hall : ∀ m < 256, (padTo2 (toHexMin m)).length = 2 := by decide
  exact hall n h

lemma hexPair_chars (n : Nat) (h : n < 256) :
    ∀ c ∈ padTo2 (toHexMin n), c ∈ hexAlphabet := by
  have hall : ∀ m < 256, ∀ c ∈ padTo2 (toHexMin m), c ∈ hexAlphabet := by decide
  exact hall n h

lemma flatMap_hex_length (l : List Nat) (h : ∀ b ∈ l, b < 256) :
    (l.flatMap (fun b => padTo2 (toHexMin b))).length = 2 * l.length := by
  induction l with
  | nil => rfl
  | cons b rest ih =>
      simp only [List.flatMap_cons, List.length_append]
      rw [hexPair_length b (h b (by simp)),
        ih (fun x hx => h x (by simp [hx]))]
      simp [List.length_cons]
      ring

/-- C4: `TypeRegistry::computeHash` xor-folds the bytes of its input into a
16-byte accumulator starting from all zeros — byte `i` lands in accumulator
position `i mod 16` — and renders the accumulator as exactly 32 lowercase
hexadecimal characters; the result always has length 32, and the empty
input yields 32 '0' characters. -/
theorem computeHash_spec :
    (∀ bytes : List Nat, (computeHash bytes).length = 32) ∧
    computeHash [] = ("00000000000000000000000000000000") ∧
    (∀ bytes : List Nat, ∀ c ∈ (computeHash bytes).data, c ∈ hexAlphabet) ∧
    (∀ (bytes : List Nat) (j : Nat), j < 16 →
      (xorAccum bytes).getD j 0 = xorSel 0 j bytes) := by
  refine ⟨?_, by decide, ?_, ?_⟩
  · intro bytes
    show (List.flatMap _ _).length = 32
    rw [flatMap_hex_length _ (xorAccum_bound bytes), xorAccum_length]
  · intro bytes c hc
    have hmem : c ∈ (xorAccum bytes).flatMap (fun b => padTo2 (toHexMin b)) := hc
    rcases List.mem_flatMap.mp hmem with ⟨b, hb, hcb⟩
    exact hexPair_chars b (xorAccum_bound bytes b hb) c hcb
  · intro bytes j hj
    rw [xorAccum, accGo_getD bytes _ 0 j (by simp) hj]
    have hz : (List.replicate 16 (0 : Nat)).getD j 0 = 0 := by
      rw [List.getD_eq_getElem?_getD, List.getElem?_replicate]
      split <;> rfl
    rw [hz, Nat.zero_xor]

/-- Witness for C4 at a concrete input. -/
theorem computeHash_spec_witness :
    (computeHash (strBytes ("ab"))).length = 32 ∧
    (xorAccum (strBytes ("ab"))).getD 3 0 = xorSel 0 3 (strBytes ("ab")) :=
  ⟨computeHash_spec.1 _, computeHash_spec.2.2.2 _ 3 (by decide)⟩

/-! ## A model of `std::map<std::string, _>`

The registry (`TypeRegistry`) stores struct fields in a
`std::map<std::string, Field>`; `buildRegistry_` fills it with
`fields[f.name] = f` in declaration order, and every generator iterates
it in its sorted key order.  We represent such a map by its iteration
order: a key-sorted association list, built by ordered insertion where an
equal key overwrites the stored value (the `operator[]` assignment). -/

/-- Ordered insertion: replace the value when the key is present,
otherwise insert at the sorted position.  Keys are compared the way
`std::less<std::string>` compares them: lexicographically on the
character sequence (`k.data`). -/
def mapInsert {β : Type} (k : String) (v : β) : List (String × β) → List (String × β)
  | [] => [(k, v)]
  | (k', v') :: rest =>
      if k.data < k'.data then (k, v) :: (k', v') :: rest
      else if k = k' then (k, v) :: rest
      else (k', v') :: mapInsert k v rest

/-- The map built by inserting the pairs of `l` left to right (later pairs
with an equal key overwrite earlier ones), in its iteration order. -/
def mapOfList {β : Type} (l : List (String × β)) : List (String × β) :=
  l.foldl (fun m p => mapInsert p.1 p.2 m) []

/-- The association list is in strictly increasing key order. -/
def KeySorted {β : Type} (m : List (String × β)) : Prop :=
  List.Pairwise (fun p q => p.1.data < q.1.data) m

/-- Value stored for `k` after inserting all pairs of the list in order:
the value of the last pair whose key is `k`. -/
def lastVal {β : Type} : List (String × β) → String → Option β
  | [], _ => none
  | p :: rest, k =>
      match lastVal rest k with
      | some v => some v
      | none => if p.1 = k then some p.2 else none

lemma key_mem_mapInsert {β : Type} (k : String) (v : β) :
    ∀ (m : List (String × β)) (p : String × β),
      p ∈ mapInsert k v m → p.1 = k ∨ p.1 ∈ m.map Prod.fst := by
  intro m
  induction m with
  | nil =>
      intro p hp
      simp only [mapInsert, List.mem_singleton] at hp
      left; rw [hp]
  | cons q rest ih =>
      intro p hp
      obtain ⟨k', v'⟩ := q
      simp only [mapInsert] at hp
      split at hp
      · rcases List.mem_cons.mp hp with h | h
        · left; rw [h]
        · right; exact List.mem_map_of_mem Prod.fst h
      · split at hp
        · rcases List.mem_cons.mp hp with h | h
          · left; rw [h]
          · right
            simp only [List.map_cons, List.mem_cons]
            right; exact List.mem_map_of_mem Prod.fst h
        · rcases List.mem_cons.mp hp with h | h
          · right; rw [h]; simp
          · rcases ih p h with h1 | h1
            · left; exact h1
            · right
              simp only [List.map_cons, List.mem_cons]
              right; exact h1

lemma ne_of_data_lt {a b : String} (h : a.data < b.data) : a ≠ b :=
  fun he => absurd (he ▸ h) (lt_irrefl _)

lemma keySorted_mapInsert {β : Type} (k : String) (v : β) :
    ∀ (m : List (String × β)), KeySorted m → KeySorted (mapInsert k v m) := by
  intro m
  induction m with
  | nil => intro _; simp [mapInsert, KeySorted]
  | cons q rest ih =>
      intro hs
      obtain ⟨k', v'⟩ := q
      rw [KeySorted, List.pairwise_cons] at hs
      obtain ⟨hhead, htail⟩ := hs
      simp only [mapInsert]
      split
      · rename_i hlt
        rw [KeySorted, List.pairwise_cons]
        constructor
        · intro p hp
          rcases List.mem_cons.mp hp with h | h
          · rw [h]; exact hlt
          · exact lt_trans hlt (hhead p h)
        · rw [KeySorted] at *
          rw [List.pairwise_cons]
          exact ⟨hhead, htail⟩
      · split
        · rename_i hne heq
          rw [KeySorted, List.pairwise_cons]
          refine ⟨?_, htail⟩
          intro p hp
          rw [heq]
          exact hhead p hp
        · rename_i hnlt hne
          rw [KeySorted, List.pairwise_cons]
          constructor
          · intro p hp
            rcases key_mem_mapInsert k v rest p hp with h | h
            · rw [h]
              rcases lt_trichotomy k.data k'.data with h1 | h1 | h1
              · exact absurd h1 hnlt
              · exact absurd (String.ext h1) hne
              · exact h1
            · rcases List.mem_map.mp h with ⟨q, hq, hfst⟩
              rw [← hfst]
              exact hhead q hq
          · exact ih htail

lemma keySorted_mapOfList {β : Type} (l : List (String × β)) :
    KeySorted (mapOfList l) := by
  have hgen : ∀ (l : List (String × β)) (m : List (String × β)), KeySorted m →
      KeySorted (l.foldl (fun m p => mapInsert p.1 p.2 m) m) := by
    intro l
    induction l with
    | nil => intro m hm; exact hm
    | cons p rest ih =>
        intro m hm
        exact ih _ (keySorted_mapInsert p.1 p.2 m hm)
  exact hgen l [] (by simp [KeySorted])

lemma mem_mapInsert {β : Type} (k : String) (v : β) :
    ∀ (m : List (String × β)), KeySorted m → ∀ (p : String × β),
      (p ∈ mapInsert k v m ↔ p = (k, v) ∨ (p ∈ m ∧ p.1 ≠ k)) := by
  intro m
  induction m with
  | nil =>
      intro _ p
      simp [mapInsert]
  | cons q rest ih =>
      intro hs p
      obtain ⟨k', v'⟩ := q
      rw [KeySorted, List.pairwise_cons] at hs
      obtain ⟨hhead, htail⟩ := hs
      simp only [mapInsert]
      split
      · rename_i hlt
        constructor
        · intro hp
          rcases List.mem_cons.mp hp with h | h
          · left; exact h
          · right
            refine ⟨h, ?_⟩
            rcases List.mem_cons.mp h with h1 | h1
            · rw [h1]; exact (ne_of_data_lt hlt).symm
            · exact (ne_of_data_lt (lt_trans hlt (hhead p h1))).symm
        · intro hp
          rcases hp with h | ⟨h, _⟩
          · exact List.mem_cons.mpr (Or.inl h)
          · exact List.mem_cons.mpr (Or.inr h)
      · split
        · rename_i hnlt heq
          subst heq
          constructor
          · intro hp
            rcases List.mem_cons.mp hp with h | h
            · left; exact h
            · right
              exact ⟨List.mem_cons.mpr (Or.inr h), (ne_of_data_lt (hhead p h)).symm⟩
          · intro hp
            rcases hp with h | ⟨h, hne⟩
            · exact List.mem_cons.mpr (Or.inl h)
            · rcases List.mem_cons.mp h with h1 | h1
              · exfalso; apply hne; rw [h1]
              · exact List.mem_cons.mpr (Or.inr h1)
        · rename_i hnlt hne
          have hk'k : k'.data < k.data := by
            rcases lt_trichotomy k.data k'.data with h1 | h1 | h1
            · exact absurd h1 hnlt
            · exact absurd (String.ext h1) hne
            · exact h1
          constructor
          · intro hp
            rcases List.mem_cons.mp hp with h | h
            · right
              refine ⟨List.mem_cons.mpr (Or.inl h), ?_⟩
              rw [h]
              exact ne_of_data_lt hk'k
            · rcases (ih htail p).mp h with h1 | ⟨h1, h2⟩
              · left; exact h1
              · right; exact ⟨List.mem_cons.mpr (Or.inr h1), h2⟩
          · intro hp
            rcases hp with h | ⟨h, h2⟩
            · exact List.mem_cons.mpr (Or.inr ((ih htail p).mpr (Or.inl h)))
            · rcases List.mem_cons.mp h with h1 | h1
              · exact List.mem_cons.mpr (Or.inl h1)
              · exact List.mem_cons.mpr
                  (Or.inr ((ih htail p).mpr (Or.inr ⟨h1, h2⟩)))

lemma mem_foldl_mapInsert {β : Type} (l : List (String × β)) :
    ∀ (m : List (String × β)), KeySorted m → ∀ (p : String × β),
      (p ∈ l.foldl (fun m q => mapInsert q.1 q.2 m) m ↔
        (lastVal l p.1).elim (p ∈ m) (fun v => p.2 = v)) := by
  induction l with
  | nil => intro m _ p; simp [lastVal]
  | cons q rest ih =>
      intro m hm p
      simp only [List.foldl_cons]
      rw [ih (mapInsert q.1 q.2 m) (keySorted_mapInsert q.1 q.2 m hm) p]
      simp only [lastVal]
      rcases hlast : lastVal rest p.1 with _ | v
      · simp only [hlast, Option.elim]
        rw [mem_mapInsert q.1 q.2 m hm p]
        by_cases hk : q.1 = p.1
        · rw [if_pos hk]
          simp only [Option.elim]
          constructor
          · intro hp
            rcases hp with h | ⟨_, hne⟩
            · rw [h]
            · exact absurd hk.symm hne
          · intro hp
            left
            obtain ⟨p1, p2⟩ := p
            simp only at hp hk
            rw [Prod.mk.injEq]
            exact ⟨hk.symm, hp⟩
        · rw [if_neg hk]
          simp only [Option.elim]
          constructor
          · intro hp
            rcases hp with h | ⟨hp, _⟩
            · exfalso
              apply hk
              rw [h]
            · exact hp
          · intro hp
            right
            refine ⟨hp, ?_⟩
            intro hc
            exact hk hc.symm
      · simp [hlast, Option.elim]

lemma lastVal_eq_none_iff {β : Type} (l : List (String × β)) (k : String) :
    lastVal l k = none ↔ k ∉ l.map Prod.fst := by
  induction l with
  | nil => simp [lastVal]
  | cons q rest ih =>
      simp only [lastVal, List.map_cons, List.mem_cons]
      rcases hlast : lastVal rest k with _ | v
      · have hnm : k ∉ rest.map Prod.fst := ih.mp hlast
        simp only [hlast]
        by_cases hq : q.1 = k
        · rw [if_pos hq]
          constructor
          · intro h; exact absurd h (by simp)
          · intro h; exact absurd (Or.inl hq.symm) h
        · rw [if_neg hq]
          constructor
          · intro _
            intro hc
            rcases hc with hc | hc
            · exact hq hc.symm
            · exact hnm hc
          · intro _; rfl
      · have hmem : k ∈ rest.map Prod.fst := by
          by_contra hc
          rw [ih.mpr hc] at hlast
          cases hlast
        simp only [hlast]
        constructor
        · intro h; exact absurd h (by simp)
        · intro h; exact absurd (Or.inr hmem) h

lemma snd_eq_of_nodup_keys {β : Type} :
    ∀ (l : List (String × β)), (l.map Prod.fst).Nodup →
      ∀ (k : String) (v v' : β), (k, v) ∈ l → (k, v') ∈ l → v = v' := by
  intro l
  induction l with
  | nil => intro _ k v v' h; cases h
  | cons q rest ih =>
      intro hnd k v v' h1 h2
      simp only [List.map_cons, List.nodup_cons] at hnd
      obtain ⟨hq, hrest⟩ := hnd
      rcases List.mem_cons.mp h1 with h1 | h1 <;>
        rcases List.mem_cons.mp h2 with h2 | h2
      · rw [← h1] at h2
        injection h2 with _ h2
        exact h2.symm
      · exfalso
        apply hq
        rw [← h1]
        exact List.mem_map.mpr ⟨(k, v'), h2, rfl⟩
      · exfalso
        apply hq
        rw [← h2]
        exact List.mem_map.mpr ⟨(k, v), h1, rfl⟩
      · exact ih hrest k v v' h1 h2

lemma lastVal_eq_some_iff_of_nodup {β : Type} :
    ∀ (l : List (String × β)), (l.map Prod.fst).Nodup →
      ∀ (k : String) (v : β), (lastVal l k = some v ↔ (k, v) ∈ l) := by
  intro l
  induction l with
  | nil => intro _ k v; simp [lastVal]
  | cons q rest ih =>
      intro hnd k v
      have hnd' := hnd
      simp only [List.map_cons, List.nodup_cons] at hnd'
      obtain ⟨hq, hrest⟩ := hnd'
      simp only [lastVal, List.mem_cons]
      rcases hlast : lastVal rest k with _ | v'
      · simp only [hlast]
        constructor
        · intro h
          split at h
          · rename_i heq
            left
            injection h with h
            rw [Prod.mk.injEq]
            exact ⟨heq.symm, h.symm⟩
          · exact absurd h (by simp)
        · intro h
          rcases h with h | h
          · rw [← h]
            simp
          · exfalso
            have := (lastVal_eq_none_iff rest k).mp hlast
            exact this (List.mem_map.mpr ⟨(k, v), h, rfl⟩)
      · have hv' : (k, v') ∈ rest := (ih hrest k v').mp hlast
        simp only [hlast]
        constructor
        · intro h
          injection h with h
          right
          rw [← h]
          exact hv'
        · intro h
          rcases h with h | h
          · exfalso
            apply hq
            rw [← h]
            exact List.mem_map.mpr ⟨(k, v'), hv', rfl⟩
          · rw [snd_eq_of_nodup_keys rest hrest k v v' h hv']

/-- Canonicity: two lists that are strictly sorted on a string-valued key
and have the same members are equal. -/
lemma eq_of_keySorted_ext {α : Type} (κ : α → String) :
    ∀ (m₁ m₂ : List α), List.Pairwise (fun a b => (κ a).data < (κ b).data) m₁ →
      List.Pairwise (fun a b => (κ a).data < (κ b).data) m₂ →
      (∀ x, x ∈ m₁ ↔ x ∈ m₂) → m₁ = m₂ := by
  intro m₁
  induction m₁ with
  | nil =>
      intro m₂ _ _ hext
      cases m₂ with
      | nil => rfl
      | cons y t => exact absurd ((hext y).mpr (by simp)) (by simp)
  | cons x t₁ ih =>
      intro m₂ h₁ h₂ hext
      cases m₂ with
      | nil => exact absurd ((hext x).mp (by simp)) (by simp)
      | cons y t₂ =>
          rw [List.pairwise_cons] at h₁ h₂
          obtain ⟨hx, ht₁⟩ := h₁
          obtain ⟨hy, ht₂⟩ := h₂
          have hxy : x = y := by
            rcases List.mem_cons.mp ((hext x).mp (by simp)) with h | h
            · exact h
            · rcases List.mem_cons.mp ((hext y).mpr (by simp)) with h' | h'
              · exact h'.symm
              · exfalso
                exact lt_irrefl _ (lt_trans (hy x h) (hx y h'))
          subst hxy
          congr 1
          apply ih t₂ ht₁ ht₂
          intro z
          constructor
          · intro hz
            have hzx : (κ x).data < (κ z).data := hx z hz
            rcases List.mem_cons.mp
                ((hext z).mp (List.mem_cons.mpr (Or.inr hz))) with h | h
            · exfalso; rw [h] at hzx; exact lt_irrefl _ hzx
            · exact h
          · intro hz
            have hzx : (κ x).data < (κ z).data := hy z hz
            rcases List.mem_cons.mp
                ((hext z).mpr (List.mem_cons.mpr (Or.inr hz))) with h | h
            · exfalso; rw [h] at hzx; exact lt_irrefl _ hzx
            · exact h

lemma mem_mapOfList {β : Type} (l : List (String × β)) (p : String × β) :
    p ∈ mapOfList l ↔ (lastVal l p.1).elim False (fun v => p.2 = v) := by
  have h := mem_foldl_mapInsert l [] (by simp [KeySorted]) p
  rw [mapOfList]
  rw [h]
  rcases lastVal l p.1 with _ | v <;> simp [Option.elim]

lemma mem_mapOfList_iff_of_nodup {β : Type} (l : List (String × β))
    (hnd : (l.map Prod.fst).Nodup) (p : String × β) :
    p ∈ mapOfList l ↔ p ∈ l := by
  rw [mem_mapOfList]
  rcases hlast : lastVal l p.1 with _ | v
  · simp only [Option.elim]
    constructor
    · intro h; exact absurd h id
    · intro h
      have : lastVal l p.1 = some p.2 :=
        (lastVal_eq_some_iff_of_nodup l hnd p.1 p.2).mpr (by simpa using h)
      rw [hlast] at this
      cases this
  · simp only [Option.elim]
    have hv : (p.1, v) ∈ l := (lastVal_eq_some_iff_of_nodup l hnd p.1 v).mp hlast
    constructor
    · intro h
      obtain ⟨p1, p2⟩ := p
      simp only at h
      rw [h]
      exact hv
    · intro h
      have : lastVal l p.1 = some p.2 :=
        (lastVal_eq_some_iff_of_nodup l hnd p.1 p.2).mpr (by simpa using h)
      rw [hlast] at this
      injection this with h'
      exact h'.symm

lemma mapOfList_perm_of_nodup {β : Type} {l₁ l₂ : List (String × β)}
    (hnd : (l₁.map Prod.fst).Nodup) (hperm : l₁.Perm l₂) :
    mapOfList l₁ = mapOfList l₂ := by
  have hnd₂ : (l₂.map Prod.fst).Nodup :=
    ((hperm.map Prod.fst).nodup_iff).mp hnd
  apply eq_of_keySorted_ext Prod.fst _ _ (keySorted_mapOfList l₁)
    (keySorted_mapOfList l₂)
  intro p
  rw [mem_mapOfList_iff_of_nodup l₁ hnd p, mem_mapOfList_iff_of_nodup l₂ hnd₂ p]
  exact hperm.mem_iff

lemma mem_keys_mapOfList {β : Type} (l : List (String × β)) (k : String) :
    k ∈ (mapOfList l).map Prod.fst ↔ k ∈ l.map Prod.fst := by
  constructor
  · intro h
    rcases List.mem_map.mp h with ⟨p, hp, hfst⟩
    rw [mem_mapOfList] at hp
    rcases hlast : lastVal l p.1 with _ | v
    · rw [hlast] at hp; exact absurd hp id
    · rw [← hfst]
      by_contra hc
      rw [(lastVal_eq_none_iff l p.1).mpr hc] at hlast
      cases hlast
  · intro h
    have hne : lastVal l k ≠ none := by
      intro hc
      exact (lastVal_eq_none_iff l k).mp hc h
    rcases hlast : lastVal l k with _ | v
    · exact absurd hlast hne
    · refine List.mem_map.mpr ⟨(k, v), ?_, rfl⟩
      rw [mem_mapOfList]
      simp [hlast, Option.elim]

lemma keys_mapOfList_perm {β : Type} {l₁ l₂ : List (String × β)}
    (hperm : l₁.Perm l₂) :
    (mapOfList l₁).map Prod.fst = (mapOfList l₂).map Prod.fst := by
  apply eq_of_keySorted_ext (fun k => k)
  · exact List.pairwise_map.mpr (keySorted_mapOfList l₁)
  · exact List.pairwise_map.mpr (keySorted_mapOfList l₂)
  · intro k
    rw [mem_keys_mapOfList, mem_keys_mapOfList]
    exact (hperm.map Prod.fst).mem_iff

lemma mapInsert_map_snd {β γ : Type} (g : β → γ) (k : String) (v : β) :
    ∀ (m : List (String × β)),
      (mapInsert k v m).map (fun p => (p.1, g p.2)) =
        mapInsert k (g v) (m.map (fun p => (p.1, g p.2))) := by
  intro m
  induction m with
  | nil => rfl
  | cons q rest ih =>
      obtain ⟨k', v'⟩ := q
      simp only [mapInsert, List.map_cons]
      by_cases h1 : k.data < k'.data
      · rw [if_pos h1, if_pos h1]
        simp
      · rw [if_neg h1, if_neg h1]
        by_cases h2 : k = k'
        · rw [if_pos h2, if_pos h2]
          simp
        · rw [if_neg h2, if_neg h2]
          simp only [List.map_cons, ih]


lemma mapOfList_map_snd {β γ : Type} (g : β → γ) (l : List (String × β)) :
    (mapOfList l).map (fun p => (p.1, g p.2)) =
      mapOfList (l.map (fun p => (p.1, g p.2))) := by
  have hgen : ∀ (l : List (String × β)) (m : List (String × β)),
      (l.foldl (fun m q => mapInsert q.1 q.2 m) m).map (fun p => (p.1, g p.2)) =
        (l.map (fun p => (p.1, g p.2))).foldl (fun m q => mapInsert q.1 q.2 m)
          (m.map (fun p => (p.1, g p.2))) := by
    intro l
    induction l with
    | nil => intro m; rfl
    | cons q rest ih =>
        intro m
        simp only [List.foldl_cons, List.map_cons]
        rw [ih (mapInsert q.1 q.2 m), mapInsert_map_snd]
  exact hgen l []

/-! ## The DSL abstract syntax (parser.h) and the registry digests

The AST mirrors `parser.h`.  The C++ stores the numeric alternative of
`Value` as a `double` obtained with `strtod`; no claim examined here
depends on floating-point semantics, so the model keeps the source
lexeme of the literal instead (`Value.num`). -/

inductive Value where
  | num (lexeme : String)
  | str (s : String)
  | boolean (b : Bool)
deriving DecidableEq, Repr

structure KeywordArg where
  name : String
  value : Value
deriving DecidableEq, Repr

structure Properties where
  args : List Value
  kwargs : List KeywordArg
deriving DecidableEq, Repr

structure FieldArray where
  length : Option Nat
deriving DecidableEq, Repr

structure Field where
  type : String
  array : Option FieldArray
  name : String
  properties : Option Properties
  default_value : Option Value
deriving DecidableEq, Repr

/-- The association list `buildRegistry_` inserts into the field map:
`fields[f.name] = f` for each declared field, in declaration order. -/
def fieldPairs (fields : List Field) : List (String × Field) :=
  fields.map (fun f => (f.name, f))

/-- The `std::map<std::string, Field>` passed to `registerStruct`, in its
iteration order. -/
def registeredFields (fields : List Field) : List (String × Field) :=
  mapOfList (fieldPairs fields)

/-- The digest string `registerStruct` builds:
`content = name; for ((fname, field) : fields) content += field.type + fname;`. -/
def structContent (name : String) (fields : List Field) : String :=
  (registeredFields fields).foldl (fun acc p => acc ++ p.2.type ++ p.1) name

/-- The type identifier recorded for a `structure` or `message`
declaration with the given name and declaration-order field list. -/
def structTypeId (name : String) (fields : List Field) : String :=
  computeHash (strBytes (structContent name fields))

lemma fieldPairs_keys (fields : List Field) :
    (fieldPairs fields).map Prod.fst = fields.map Field.name := by
  rw [fieldPairs, List.map_map]
  rfl

lemma structContent_eq_proj (name : String) (fields : List Field) :
    structContent name fields =
      (mapOfList (fields.map (fun f => (f.name, f.type)))).foldl
        (fun acc p => acc ++ p.2 ++ p.1) name := by
  have h1 : fields.map (fun f => (f.name, f.type)) =
      (fieldPairs fields).map (fun p => (p.1, p.2.type)) := by
    rw [fieldPairs, List.map_map]
    rfl
  rw [structContent, h1, ← mapOfList_map_snd (fun f => f.type) (fieldPairs fields),
    List.foldl_map]
  rfl

/-- C1: the type identifier recorded at registration is a deterministic
function of the declaration alone — it depends only on the declared type
name and the (field name, field type) data of the declaration, so any two
compilations of the same declaration, in any environment, produce equal
identifiers. -/
theorem structTypeId_deterministic :
    ∀ (name : String) (fields₁ fields₂ : List Field),
      fields₁.map (fun f => (f.name, f.type)) =
        fields₂.map (fun f => (f.name, f.type)) →
      structTypeId name fields₁ = structTypeId name fields₂ := by
  intro name f1 f2 h
  rw [structTypeId, structTypeId, structContent_eq_proj, structContent_eq_proj, h]

def fldCount : Field := ⟨"int32", none, "count", none, none⟩

def fldCountArr : Field := ⟨"int32", some ⟨some 4⟩, "count", none, some (Value.num "7")⟩

def fldIntA : Field := ⟨"int32", none, "a", none, none⟩

def fldFloatA : Field := ⟨"float32", none, "a", none, none⟩

def fldIntB : Field := ⟨"int32", none, "b", none, none⟩

def fldIntZ : Field := ⟨"int32", none, "z", none, none⟩

def fldIntZZ : Field := ⟨"int32", none, "zz", none, none⟩

/-- Witness for C1: two registrations of the same (name, type) field data
give the same identifier, even when array and default attributes differ
(the digest never reads them). -/
theorem structTypeId_deterministic_witness :
    structTypeId ("M") [fldCount] = structTypeId ("M") [fldCountArr] :=
  structTypeId_deterministic ("M") [fldCount] [fldCountArr] rfl

/-- C2 counterexample: the claim quantifies over every structure
declaration and every permutation of its fields, but when two fields share
one name the later declaration overwrites the earlier in the field map, so
swapping `int32 a; float32 a;` changes the registered hash. -/
theorem structTypeId_not_perm_invariant :
    ([fldIntA, fldFloatA].Perm [fldFloatA, fldIntA]) ∧
    structTypeId ("S") [fldIntA, fldFloatA] ≠
      structTypeId ("S") [fldFloatA, fldIntA] :=
  ⟨List.Perm.swap fldFloatA fldIntA [], by decide⟩

/-- C2 amended: for declarations whose field names are pairwise distinct,
the registered type identifier is invariant under any permutation of the
field declarations. -/
theorem structTypeId_perm_invariant_of_nodup :
    ∀ (name : String) (l₁ l₂ : List Field),
      (l₁.map Field.name).Nodup → l₁.Perm l₂ →
      structTypeId name l₁ = structTypeId name l₂ := by
  intro name l₁ l₂ hnd hperm
  have hkeys : ((fieldPairs l₁).map Prod.fst).Nodup := by
    rw [fieldPairs_keys]; exact hnd
  have hpairs : (fieldPairs l₁).Perm (fieldPairs l₂) := by
    rw [fieldPairs, fieldPairs]
    exact hperm.map (fun f => (f.name, f))
  rw [structTypeId, structTypeId, structContent, structContent,
    registeredFields, registeredFields, mapOfList_perm_of_nodup hkeys hpairs]

/-- Witness for C2 at a concrete declaration with distinct field names. -/
theorem structTypeId_perm_invariant_witness :
    structTypeId ("S") [fldIntA, fldIntB] = structTypeId ("S") [fldIntB, fldIntA] :=
  structTypeId_perm_invariant_of_nodup ("S") [fldIntA, fldIntB] [fldIntB, fldIntA]
    (by decide) (List.Perm.swap fldIntB fldIntA [])

/-- Digest built the way the specification sentence for C3 describes it:
the type name followed by each field's type and name in declaration
order. -/
def structContentDeclOrder (name : String) (fields : List Field) : String :=
  fields.foldl (fun acc f => acc ++ f.type ++ f.name) name

/-- Hash of the specification-order digest. -/
def structTypeIdDeclOrder (name : String) (fields : List Field) : String :=
  computeHash (strBytes (structContentDeclOrder name fields))

/-- C3 counterexample: for `structure S { int32 b; int32 a; }` the
registered identifier hashes the fields in sorted name order, which
differs from the hash of the declaration-order digest the claim
describes. -/
theorem structTypeId_ne_declOrder_digest :
    structTypeId ("S") [fldIntB, fldIntA] ≠
      structTypeIdDeclOrder ("S") [fldIntB, fldIntA] := by decide

/-- Sorting the field declarations by field name (the `std::map` iteration
order when names are distinct). -/
def sortFieldsByName (fields : List Field) : List Field :=
  List.insertionSort (fun f g => f.name.data ≤ g.name.data) fields

lemma registeredFields_eq_sorted (fields : List Field)
    (hnd : (fields.map Field.name).Nodup) :
    registeredFields fields = fieldPairs (sortFieldsByName fields) := by
  haveI : IsTotal Field (fun f g : Field => f.name.data ≤ g.name.data) :=
    ⟨fun a b => le_total a.name.data b.name.data⟩
  haveI : IsTrans Field (fun f g : Field => f.name.data ≤ g.name.data) :=
    ⟨fun a b c hab hbc => le_trans hab hbc⟩
  have hperm : (sortFieldsByName fields).Perm fields :=
    List.perm_insertionSort _ fields
  have hsorted : List.Pairwise (fun f g : Field => f.name.data ≤ g.name.data)
      (sortFieldsByName fields) :=
    List.sorted_insertionSort _ fields
  have hnd' : ((sortFieldsByName fields).map Field.name).Nodup :=
    ((hperm.map Field.name).nodup_iff).mpr hnd
  have hne : List.Pairwise (fun f g : Field => f.name ≠ g.name)
      (sortFieldsByName fields) := List.pairwise_map.mp hnd'
  have hlt : List.Pairwise (fun f g : Field => f.name.data < g.name.data)
      (sortFieldsByName fields) :=
    (hsorted.and hne).imp
      (fun h => lt_of_le_of_ne h.1 (fun hd => h.2 (String.ext hd)))
  apply eq_of_keySorted_ext Prod.fst
  · exact keySorted_mapOfList (fieldPairs fields)
  · rw [fieldPairs]
    exact List.pairwise_map.mpr hlt
  · intro p
    have hkeys : ((fieldPairs fields).map Prod.fst).Nodup := by
      rw [fieldPairs_keys]; exact hnd
    show p ∈ mapOfList (fieldPairs fields) ↔ p ∈ fieldPairs (sortFieldsByName fields)
    rw [mem_mapOfList_iff_of_nodup (fieldPairs fields) hkeys p]
    rw [fieldPairs, fieldPairs]
    exact ((hperm.map (fun f => (f.name, f))).mem_iff).symm

/-- C3 amended: the registered type identifier is the hash of the digest
that enumerates the fields in ascending lexicographic order of field name
(the `std::map` iteration order), each contributing its type followed by
its name — not in declaration order. -/
theorem structTypeId_sorted_digest :
    ∀ (name : String) (fields : List Field), (fields.map Field.name).Nodup →
      structTypeId name fields =
        structTypeIdDeclOrder name (sortFieldsByName fields) := by
  intro name fields hnd
  rw [structTypeId, structTypeIdDeclOrder, structContent,
    registeredFields_eq_sorted fields hnd, structContentDeclOrder, fieldPairs,
    List.foldl_map]

/-- Witness for C3 amended, at `structure S { int32 b; int32 a; }`. -/
theorem structTypeId_sorted_digest_witness :
    structTypeId ("S") [fldIntB, fldIntA] =
      structTypeIdDeclOrder ("S") (sortFieldsByName [fldIntB, fldIntA]) :=
  structTypeId_sorted_digest ("S") [fldIntB, fldIntA] (by decide)

/-! ## Generated C++ structure code (CppGenerator) -/

/-- The sequence of field names, in the order every generated C++ piece
iterates them (`for (const auto& [fname, field] : fields)` over the
registered `std::map`). -/
def serializerFieldOrder (fields : List Field) : List String :=
  (registeredFields fields).map Prod.fst

/-- Body of the generated `read` specialization for a struct
(`generateStructSerializers_`): one `read(reader, dst.<fname>);` line per
field, in map iteration order. -/
def cppReadBody (fields : List Field) : String :=
  String.join ((registeredFields fields).map
    (fun p => "\tread(reader, dst." ++ p.1 ++ ");\n"))

/-- CppGenerator::getFieldType_, with the registry container lookup for
the base type abstracted as `container` (it resolves the field's type
name; the array logic is what matters here). -/
def getFieldType (container : String → String) (f : Field) : String :=
  match f.array with
  | some arr =>
      match arr.length with
      | some n => container f.type ++ "[" ++ toString n ++ "]"
      | none => "std::vector<" ++ container f.type ++ ">"
  | none => container f.type

/-- The generated constructor parameters (`generateStructs_`): for each
field, its name paired with the rendered parameter
`<type> <name> = <default>`, in map iteration order; the default-value
rendering (`getDefaultValue_`) is abstracted as `dflt`. -/
def cppCtorParams (container : String → String) (dflt : Field → String)
    (fields : List Field) : List (String × String) :=
  (registeredFields fields).map
    (fun p => (p.1, getFieldType container p.2 ++ " " ++ p.1 ++ " = " ++ dflt p.2))

/-- C10: the generated C++ serializers read and write the fields in
ascending lexicographic order of field name (the iteration order of the
registered `std::map`), the generated constructor parameters follow the
same order, reordering the field declarations never changes that order,
and renaming a field can (renaming `a` to `zz` next to a field `z` moves
it from first to last on the wire). -/
theorem cpp_serializer_sorted_order :
    (∀ fields : List Field, List.Sorted (· < ·) (serializerFieldOrder fields)) ∧
    (∀ (container : String → String) (dflt : Field → String)
      (fields : List Field),
      (cppCtorParams container dflt fields).map Prod.fst =
        serializerFieldOrder fields) ∧
    (∀ fields : List Field, cppReadBody fields =
      String.join ((serializerFieldOrder fields).map
        (fun n => "\tread(reader, dst." ++ n ++ ");\n"))) ∧
    (∀ l₁ l₂ : List Field, l₁.Perm l₂ →
      serializerFieldOrder l₁ = serializerFieldOrder l₂) ∧
    (serializerFieldOrder [fldIntA, fldIntZ] = ["a", "z"] ∧
     serializerFieldOrder [fldIntZZ, fldIntZ] = ["z", "zz"]) := by
  refine ⟨?_, ?_, ?_, ?_, by decide, by decide⟩
  · intro fields
    exact List.pairwise_map.mpr
      (List.Pairwise.imp (fun hd => String.lt_iff_toList_lt.mpr hd)
        (keySorted_mapOfList (fieldPairs fields)))
  · intro container dflt fields
    rw [cppCtorParams, serializerFieldOrder, List.map_map]
    rfl
  · intro fields
    rw [cppReadBody, serializerFieldOrder, List.map_map]
    rfl
  · intro l₁ l₂ hperm
    rw [serializerFieldOrder, serializerFieldOrder, registeredFields,
      registeredFields, fieldPairs, fieldPairs]
    exact keys_mapOfList_perm (hperm.map (fun f => (f.name, f)))

/-- Witness for C10 at concrete declarations: the order is invariant under
swapping two declarations. -/
theorem cpp_serializer_sorted_order_witness :
    serializerFieldOrder [fldIntZ, fldIntA] = serializerFieldOrder [fldIntA, fldIntZ] :=
  cpp_serializer_sorted_order.2.2.2.1 [fldIntZ, fldIntA] [fldIntA, fldIntZ]
    (List.Perm.swap fldIntA fldIntZ [])

/-! ## The `gen` command line driver (main.cpp)

`main` scans the arguments for `--language cpp|python`, collecting every
other argument as an input file.  Reading, parsing and emission are then
driven by `input_files.size() > 1`.  Parsing is abstracted as a predicate
`parseOk` on the text read (main only observes whether `parse` throws). -/

inductive OutputLanguage where
  | cpp
  | python
deriving DecidableEq, Repr

/-- Directory stripping in `output_filename`:
`base = input.substr(input.find_last_of("/\\") + 1)` — the suffix after
the last separator. -/
def stripDirectory (l : List Char) : List Char :=
  (l.reverse.takeWhile (fun c => !(c == '/' || c == '\\'))).reverse

/-- Extension stripping in `output_filename`:
`base = base.substr(0, base.find_last_of('.'))` when a dot is present. -/
def stripExtension (l : List Char) : List Char :=
  if '.' ∈ l then ((l.reverse.dropWhile (fun c => !(c == '.'))).drop 1).reverse
  else l

/-- output_filename (main.cpp lines 18-41): basename of the input with the
extension replaced by `.cpp` or `.py`.  Note the directory part of the
input is stripped, so the result is relative to the working directory. -/
def output_filename (input : String) (lang : OutputLanguage) : String :=
  match lang with
  | .cpp => String.mk (stripExtension (stripDirectory input.data)) ++ ".cpp"
  | .python => String.mk (stripExtension (stripDirectory input.data)) ++ ".py"

/-- The argument loop of `main`: `--language` followed by `cpp` or
`python` selects the output language (any other value exits with code 1);
every other argument is collected as an input file.  A trailing
`--language` with nothing after it fails the `i + 1 < argc` test and is
pushed as an input file, as in the C++ loop. -/
def parseArgs : List String → OutputLanguage → List String →
    Option (OutputLanguage × List String)
  | [], lang, files => some (lang, files)
  | a :: l :: rest, lang, files =>
      if a = "--language" then
        if l = "cpp" then parseArgs rest OutputLanguage.cpp files
        else if l = "python" then parseArgs rest OutputLanguage.python files
        else none
      else parseArgs (l :: rest) lang (files ++ [a])
  | [a], lang, files => some (lang, files ++ [a])

/-- The file system and standard input a run of the driver sees. -/
structure GenEnv where
  fileContents : String → Option String
  stdinContent : String

/-- Outcome of a run: exit code, plus the generated outputs, each tagged
with the input it came from (`none` = standard input) and the output file
name (the empty string = standard output). -/
structure GenResult where
  exitCode : Nat
  outputs : List (Option String × String)
deriving DecidableEq, Repr

/-- The multi-file branch of `main`: read each named file, parse it and
write the generated code to `output_filename`; an unreadable file or a
`DescriptionError` returns exit code 1 at once, skipping generation for
that input and everything after it. -/
def runFiles (lang : OutputLanguage) (env : GenEnv) (parseOk : String → Bool) :
    List String → List (Option String × String) → GenResult
  | [], acc => ⟨0, acc⟩
  | f :: rest, acc =>
      match env.fileContents f with
      | none => ⟨1, acc⟩
      | some content =>
          if parseOk content then
            runFiles lang env parseOk rest (acc ++ [(some f, output_filename f lang)])
          else ⟨1, acc⟩

/-- main (main.cpp lines 75-137).  The branch condition is the code's
`input_files.size() > 1`: with zero *or one* input file it reads standard
input and writes to standard output. -/
def genMain (args : List String) (env : GenEnv) (parseOk : String → Bool) :
    GenResult :=
  match parseArgs args OutputLanguage.cpp [] with
  | none => ⟨1, []⟩
  | some (lang, files) =>
      if files.length > 1 then runFiles lang env parseOk files []
      else if parseOk env.stdinContent then ⟨0, [(none, "")]⟩ else ⟨1, []⟩

/-- The texts the driver actually reads and parses. -/
def inputsRead (args : List String) (env : GenEnv) : List String :=
  match parseArgs args OutputLanguage.cpp [] with
  | none => []
  | some (_, files) =>
      if files.length > 1 then files.filterMap env.fileContents
      else [env.stdinContent]

/-- C5 (code bug): invoked with exactly one input file argument, the
driver does not read the named file — `input_files.size() > 1` fails and
it reads standard input and writes to standard output; moreover
`output_filename` strips the directory, so even in the multi-file branch
output goes to the working directory, not next to the input. -/
theorem single_input_file_reads_stdin :
    (genMain ["foo.msg"] ⟨fun _ => some "filetext", "stdintext"⟩
        (fun _ => true) = ⟨0, [(none, "")]⟩) ∧
    inputsRead ["foo.msg"] ⟨fun _ => some "filetext", "stdintext"⟩ =
      ["stdintext"] ∧
    output_filename ("dir/foo.msg") OutputLanguage.cpp = "foo.cpp" := by
  refine ⟨rfl, rfl, ?_⟩
  decide

lemma runFiles_exit_zero_iff (lang : OutputLanguage) (env : GenEnv)
    (parseOk : String → Bool) :
    ∀ (files : List String) (acc : List (Option String × String)),
      (∀ f ∈ files, (env.fileContents f).isSome) →
      ((runFiles lang env parseOk files acc).exitCode = 0 ↔
        ∀ s ∈ files.filterMap env.fileContents, parseOk s = true) := by
  intro files
  induction files with
  | nil => intro acc _; simp [runFiles]
  | cons f rest ih =>
      intro acc hsome
      rcases hc : env.fileContents f with _ | c
      · exfalso
        have := hsome f (by simp)
        rw [hc] at this
        cases this
      · simp only [runFiles, hc]
        rw [List.filterMap_cons]
        rw [hc]
        by_cases hp : parseOk c = true
        · rw [if_pos hp]
          rw [ih _ (fun g hg => hsome g (by simp [hg]))]
          constructor
          · intro hall s hs
            rcases List.mem_cons.mp hs with h | h
            · rw [h]; exact hp
            · exact hall s h
          · intro hall s hs
            exact hall s (List.mem_cons.mpr (Or.inr hs))
        · rw [if_neg hp]
          constructor
          · intro h; cases h
          · intro hall
            exact absurd (hall c (by simp)) hp

lemma runFiles_no_output_of_fail (lang : OutputLanguage) (env : GenEnv)
    (parseOk : String → Bool) (f : String) (c : String) (o : String)
    (hc : env.fileContents f = some c) (hp : parseOk c = false) :
    ∀ (files : List String) (acc : List (Option String × String)),
      (some f, o) ∉ acc →
      (some f, o) ∉ (runFiles lang env parseOk files acc).outputs := by
  intro files
  induction files with
  | nil => intro acc hacc; exact hacc
  | cons g rest ih =>
      intro acc hacc
      rcases hg : env.fileContents g with _ | cg
      · simp only [runFiles, hg]
        exact hacc
      · simp only [runFiles, hg]
        by_cases hpg : parseOk cg = true
        · rw [if_pos hpg]
          apply ih
          intro hmem
          rcases List.mem_append.mp hmem with h | h
          · exact hacc h
          · have heq : f = g := by
              rcases List.mem_singleton.mp h with h'
              exact (Option.some.inj (congrArg Prod.fst h'))
            rw [heq] at hc
            rw [hc] at hg
            injection hg with hcg
            rw [← hcg] at hpg
            rw [hp] at hpg
            cases hpg
        · rw [if_neg hpg]
          exact hacc

/-- C9: whenever parsing of a text the driver reads fails, `main` returns
a non-zero exit code and emits no generated output for that input; when
every text it reads parses, it returns zero.  Hypotheses: the argument
scan succeeds (no bad `--language` value) and every named input file is
readable. -/
theorem parse_failure_nonzero_exit :
    ∀ (args : List String) (env : GenEnv) (parseOk : String → Bool)
      (lang : OutputLanguage) (files : List String),
      parseArgs args OutputLanguage.cpp [] = some (lang, files) →
      (∀ f ∈ files, (env.fileContents f).isSome) →
      (((genMain args env parseOk).exitCode = 0 ↔
        ∀ s ∈ inputsRead args env, parseOk s = true) ∧
       (∀ f c, f ∈ files → env.fileContents f = some c → parseOk c = false →
         ∀ o, (some f, o) ∉ (genMain args env parseOk).outputs)) := by
  intro args env parseOk lang files hargs hsome
  constructor
  · simp only [genMain, inputsRead, hargs]
    by_cases hlen : files.length > 1
    · rw [if_pos hlen, if_pos hlen]
      exact runFiles_exit_zero_iff lang env parseOk files [] hsome
    · rw [if_neg hlen, if_neg hlen]
      by_cases hp : parseOk env.stdinContent = true
      · simp [hp]
      · simp [hp]
  · intro f c hf hc hp o
    simp only [genMain, hargs]
    by_cases hlen : files.length > 1
    · rw [if_pos hlen]
      exact runFiles_no_output_of_fail lang env parseOk f c o hc
        (by rw [hp]) files [] (by simp)
    · rw [if_neg hlen]
      by_cases hps : parseOk env.stdinContent = true
      · simp [hps]
      · simp [hps]

/-- Witness for C9: a concrete two-file run where the second file fails to
parse exits non-zero and emits nothing for that file. -/
theorem parse_failure_nonzero_exit_witness :
    ((genMain ["a.msg", "b.msg"]
        ⟨fun f => if f = "a.msg" then some "good" else
          if f = "b.msg" then some "bad" else none, ""⟩
        (fun s => s == "good")).exitCode = 0 ↔
      ∀ s ∈ inputsRead ["a.msg", "b.msg"]
        ⟨fun f => if f = "a.msg" then some "good" else
          if f = "b.msg" then some "bad" else none, ""⟩,
        (s == "good") = true) ∧
    (∀ f c, f ∈ ["a.msg", "b.msg"] →
      (if f = "a.msg" then some "good" else
        if f = "b.msg" then some "bad" else none) = some c →
      (c == "good") = false →
      ∀ o, (some f, o) ∉ (genMain ["a.msg", "b.msg"]
        ⟨fun f => if f = "a.msg" then some "good" else
          if f = "b.msg" then some "bad" else none, ""⟩
        (fun s => s == "good")).outputs) :=
  parse_failure_nonzero_exit ["a.msg", "b.msg"]
    ⟨fun f => if f = "a.msg" then some "good" else
      if f = "b.msg" then some "bad" else none, ""⟩
    (fun s => s == "good") OutputLanguage.cpp ["a.msg", "b.msg"] rfl
    (by decide)

/-! ## The lexer (parser.cpp lines 34-240)

The C++ lexer walks a `std::string_view` with an index and 1-based
line/column counters; `ch_()` yields `'\0'` at (or past) the end of the
input.  We model the remaining input as a `List Char` (an embedded NUL
character behaves like end of input, as it does for `ch_()`), and a lexer
state as the remaining input plus the current line and column.  Tokens
carry their kind, lexeme and starting position (the byte offset of `Span`
is never read by the parser and is omitted). -/

inductive TokKind where
  | tEnd
  | ident
  | number
  | strTok
  | lbrack
  | rbrack
  | lbrace
  | rbrace
  | lparen
  | rparen
  | colon
  | semicolon
  | equals
  | comma
  | dot
deriving DecidableEq, Repr

structure Token where
  kind : TokKind
  lexeme : String
  line : Nat
  col : Nat
deriving DecidableEq, Repr

/-- DescriptionError (parser.cpp lines 20-25): the file, line, column and
message it is constructed from. -/
structure DescError where
  file : String
  line : Nat
  col : Nat
  message : String
deriving DecidableEq, Repr

structure LexState where
  rest : List Char
  line : Nat
  col : Nat
deriving DecidableEq, Repr

/-- std::isspace in the C locale. -/
def isSpaceChar (c : Char) : Bool :=
  c == ' ' || c == '\t' || c == '\n' || c == '\x0b' || c == '\x0c' || c == '\r'

/-- Identifier characters: `std::isalnum(c) || c == '_'`. -/
def isIdentChar (c : Char) : Bool :=
  c.isAlphanum || c == '_'

/-- skipWsAndComments_ (parser.cpp lines 103-116): skip whitespace and
`#`-to-end-of-line comments.  The flag records whether we are inside a
comment (whose scan stops at a newline or a NUL). -/
def skipWsAux : Bool → List Char → Nat → Nat → (List Char × Nat × Nat)
  | _, [], line, col => ([], line, col)
  | true, c :: rest, line, col =>
      if c == '\x00' then (c :: rest, line, col)
      else if c == '\n' then skipWsAux false rest (line + 1) 1
      else skipWsAux true rest line (col + 1)
  | false, c :: rest, line, col =>
      if c == '\n' then skipWsAux false rest (line + 1) 1
      else if isSpaceChar c then skipWsAux false rest line (col + 1)
      else if c == '#' then skipWsAux true rest line (col + 1)
      else (c :: rest, line, col)

def skipWs (l : List Char) (line col : Nat) : List Char × Nat × Nat :=
  skipWsAux false l line col

/-- The scanning loop of lexString_ (parser.cpp lines 130-159), after the
opening quote has been consumed: the number of characters up to and
including the closing quote, or `none` when a NUL, the end of the input or
a raw newline is reached first (an unterminated literal). -/
def lexStrLoop : List Char → Bool → Option Nat
  | [], _ => none
  | c :: rest, escaped =>
      if c == '\x00' || c == '\n' then none
      else if escaped then (lexStrLoop rest false).map (· + 1)
      else if c == '\\' then (lexStrLoop rest true).map (· + 1)
      else if c == '"' then some 1
      else (lexStrLoop rest false).map (· + 1)

/-- lexNumber_ (parser.cpp lines 161-192): the number of characters of the
numeric literal (optional sign, digits, optional fraction, optional
exponent), or an error when the exponent has no digits. -/
def lexNumberCount (cs : List Char) : Except Unit Nat :=
  let signLen : Nat :=
    match cs with
    | c :: _ => if c == '+' || c == '-' then 1 else 0
    | [] => 0
  let rest1 := cs.drop signLen
  let intLen := (rest1.takeWhile Char.isDigit).length
  let rest2 := rest1.drop intLen
  let fracLen : Nat :=
    match rest2 with
    | c :: r => if c == '.' then 1 + (r.takeWhile Char.isDigit).length else 0
    | [] => 0
  let rest3 := rest2.drop fracLen
  match rest3 with
  | c :: r =>
      if c == 'e' || c == 'E' then
        let esignLen : Nat :=
          match r with
          | d :: _ => if d == '+' || d == '-' then 1 else 0
          | [] => 0
        let r2 := r.drop esignLen
        match r2 with
        | d :: _ =>
            if Char.isDigit d then
              Except.ok (signLen + intLen + fracLen + 1 + esignLen +
                (r2.takeWhile Char.isDigit).length)
            else Except.error ()
        | [] => Except.error ()
      else Except.ok (signLen + intLen + fracLen)
  | [] => Except.ok (signLen + intLen + fracLen)

/-- Single-character symbol tokens (parser.cpp lines 222-238). -/
def symbolKind (c : Char) : Option TokKind :=
  if c == '[' then some TokKind.lbrack
  else if c == ']' then some TokKind.rbrack
  else if c == '{' then some TokKind.lbrace
  else if c == '}' then some TokKind.rbrace
  else if c == '(' then some TokKind.lparen
  else if c == ')' then some TokKind.rparen
  else if c == ':' then some TokKind.colon
  else if c == ';' then some TokKind.semicolon
  else if c == '=' then some TokKind.equals
  else if c == ',' then some TokKind.comma
  else if c == '.' then some TokKind.dot
  else none

/-- nextImpl_ (parser.cpp lines 201-239).  All errors thrown here carry
the fixed file name "<input>" — the lexer never sees the name passed to
`parse`. -/
def nextToken (st : LexState) : Except DescError (Token × LexState) :=
  let s := skipWs st.rest st.line st.col
  match s.1 with
  | [] => Except.ok (⟨TokKind.tEnd, "", s.2.1, s.2.2⟩, ⟨[], s.2.1, s.2.2⟩)
  | c :: cs =>
      if c == '\x00' then
        Except.ok (⟨TokKind.tEnd, "", s.2.1, s.2.2⟩, ⟨c :: cs, s.2.1, s.2.2⟩)
      else if c == '"' then
        match lexStrLoop cs false with
        | none =>
            Except.error ⟨"<input>", s.2.1, s.2.2, "Unterminated string literal"⟩
        | some n =>
            Except.ok (⟨TokKind.strTok, String.mk ((c :: cs).take (n + 1)), s.2.1, s.2.2⟩,
              ⟨cs.drop n, s.2.1, s.2.2 + (n + 1)⟩)
      else if Char.isDigit c ||
          ((c == '+' || c == '-') &&
            (match cs with | d :: _ => Char.isDigit d | [] => false)) then
        match lexNumberCount (c :: cs) with
        | Except.error _ =>
            Except.error ⟨"<input>", s.2.1, s.2.2, "Malformed exponent in number literal"⟩
        | Except.ok n =>
            Except.ok (⟨TokKind.number, String.mk ((c :: cs).take n), s.2.1, s.2.2⟩,
              ⟨(c :: cs).drop n, s.2.1, s.2.2 + n⟩)
      else if isIdentChar c then
        Except.ok
          (⟨TokKind.ident, String.mk ((c :: cs).takeWhile isIdentChar), s.2.1, s.2.2⟩,
            ⟨(c :: cs).dropWhile isIdentChar, s.2.1,
              s.2.2 + ((c :: cs).takeWhile isIdentChar).length⟩)
      else
        match symbolKind c with
        | some k =>
            Except.ok (⟨k, String.mk [c], s.2.1, s.2.2⟩, ⟨cs, s.2.1, s.2.2 + 1⟩)
        | none =>
            Except.error ⟨"<input>", s.2.1, s.2.2,
              "Unexpected character: '" ++ String.mk [c] ++ "'"⟩

/-! ## String unquoting (Parser::unquote_, parser.cpp lines 302-333) -/

/-- The escape decoding switch in unquote_: the five known escapes, and
`default: out.push_back(e)` — any other escaped character is kept
without its backslash. -/
def decodeEscape (e : Char) : Char :=
  if e == '\\' then '\\'
  else if e == '"' then '"'
  else if e == 'n' then '\n'
  else if e == 'r' then '\r'
  else if e == 't' then '\t'
  else e

/-- The character loop of unquote_ over the text between the quotes:
`none` models the "Invalid escape sequence in string" error (a backslash
as the last character before the closing quote). -/
def unquoteAux : List Char → Option (List Char)
  | [] => some []
  | c :: rest =>
      if c == '\\' then
        match rest with
        | [] => none
        | e :: rest' => (unquoteAux rest').map (fun l => decodeEscape e :: l)
      else (unquoteAux rest).map (fun l => c :: l)

/-- Parser::unquote_ on a string token: checks the surrounding quotes and
decodes the interior.  Errors here use the file name held by the parser
(unlike the lexer's errors). -/
def unquote (filename : String) (t : Token) : Except DescError String :=
  let s := t.lexeme.data
  if s.length < 2 ∨ s.head? ≠ some '"' ∨ s.getLast? ≠ some '"' then
    Except.error ⟨filename, t.line, t.col, "Internal error: invalid string token"⟩
  else
    match unquoteAux (s.drop 1).dropLast with
    | none => Except.error ⟨filename, t.line, t.col, "Invalid escape sequence in string"⟩
    | some l => Except.ok (String.mk l)

/-- C6 amended: the decoder maps the escapes `\n \r \t \\ \"` to newline,
carriage return, tab, backslash and double quote, and any other escape
sequence to the escaped character alone — the backslash of an unknown
escape is dropped, not preserved. -/
theorem unquote_escape_behavior :
    (∀ rest : List Char,
      unquoteAux ('\\' :: 'n' :: rest) = (unquoteAux rest).map (fun l => '\n' :: l)) ∧
    (∀ rest : List Char,
      unquoteAux ('\\' :: 'r' :: rest) = (unquoteAux rest).map (fun l => '\r' :: l)) ∧
    (∀ rest : List Char,
      unquoteAux ('\\' :: 't' :: rest) = (unquoteAux rest).map (fun l => '\t' :: l)) ∧
    (∀ rest : List Char,
      unquoteAux ('\\' :: '\\' :: rest) = (unquoteAux rest).map (fun l => '\\' :: l)) ∧
    (∀ rest : List Char,
      unquoteAux ('\\' :: '"' :: rest) = (unquoteAux rest).map (fun l => '"' :: l)) ∧
    (∀ (e : Char) (rest : List Char),
      e ∉ (['n', 'r', 't', '\\', '"'] : List Char) →
      unquoteAux ('\\' :: e :: rest) = (unquoteAux rest).map (fun l => e :: l)) := by
  refine ⟨?_, ?_, ?_, ?_, ?_, ?_⟩ <;>
    first
    | (intro rest; rfl)
    | (intro e rest he
       simp only [unquoteAux]
       norm_num
       have hd : decodeEscape e = e := by
         simp only [List.mem_cons, List.mem_singleton] at he
         push_neg at he
         simp only [decodeEscape]
         rw [if_neg (by simpa using he.2.2.2.1), if_neg (by simpa using he.2.2.2.2),
           if_neg (by simpa using he.1), if_neg (by simpa using he.2.1),
           if_neg (by simpa using he.2.2.1)]
       rw [hd])

/-- Witness for C6 amended at the escape `\q`. -/
theorem unquote_escape_behavior_witness :
    unquoteAux ('\\' :: 'q' :: []) = (unquoteAux []).map (fun l => 'q' :: l) :=
  unquote_escape_behavior.2.2.2.2.2 'q' [] (by decide)

/-- C7 amended, lexer part: a string literal that is unterminated or
contains a raw newline makes the lexer throw a DescriptionError whose
line and column are those of the opening quote but whose file is the
fixed placeholder "<input>"; indeed every error the lexer throws carries
the file "<input>", never the file name passed to parse. -/
theorem lexer_error_placeholder_file :
    (∀ (rest : List Char) (line col : Nat), lexStrLoop rest false = none →
      nextToken ⟨'"' :: rest, line, col⟩ =
        Except.error ⟨"<input>", line, col, "Unterminated string literal"⟩) ∧
    (∀ (st : LexState) (e : DescError),
      nextToken st = Except.error e → e.file = "<input>") := by
  constructor
  · intro rest line col hloop
    have hskip : skipWs ('"' :: rest) line col = ('"' :: rest, line, col) := by
      simp [skipWs, skipWsAux, isSpaceChar]
    simp only [nextToken, hskip, hloop]
    rfl
  · intro st e h
    simp only [nextToken] at h
    split at h
    · cases h
    · split at h
      · cases h
      · split at h
        · split at h
          · injection h with h'
            rw [← h']
          · cases h
        · split at h
          · split at h
            · injection h with h'
              rw [← h']
            · cases h
          · split at h
            · cases h
            · split at h
              · cases h
              · injection h with h'
                rw [← h']

/-- Witness for C7 amended at concrete lexer states. -/
theorem lexer_error_placeholder_file_witness :
    nextToken ⟨'"' :: ("abc").data, 5, 7⟩ =
      Except.error ⟨"<input>", 5, 7, "Unterminated string literal"⟩ ∧
    (⟨"<input>", 1, 1, "Unexpected character: '@'"⟩ : DescError).file = "<input>" :=
  ⟨lexer_error_placeholder_file.1 (("abc").data) 5 7 rfl,
   lexer_error_placeholder_file.2 ⟨("@").data, 1, 1⟩ _ rfl⟩

/-! ## The remaining AST (parser.h lines 71-126) -/

structure FieldList where
  fields : List Field
deriving DecidableEq, Repr

structure EnumerateValue where
  name : String
deriving DecidableEq, Repr

structure Enumerate where
  name : String
  values : List EnumerateValue
deriving DecidableEq, Repr

structure Include where
  name : String
  properties : Option Properties
deriving DecidableEq, Repr

structure Import where
  name : String
deriving DecidableEq, Repr

structure ExternalLanguage where
  language : String
  container : String
  sources : List String
  deflt : Option String
  read : Option String
  write : Option String
deriving DecidableEq, Repr

structure External where
  name : String
  languages : List ExternalLanguage
deriving DecidableEq, Repr

structure Structure where
  name : String
  fields : FieldList
deriving DecidableEq, Repr

structure Message where
  name : String
  fields : FieldList
deriving DecidableEq, Repr

structure Namespace where
  name : String
deriving DecidableEq, Repr

inductive Decl where
  | enum (e : Enumerate)
  | incl (i : Include)
  | imprt (i : Import)
  | ext (e : External)
  | struc (s : Structure)
  | msg (m : Message)
deriving DecidableEq, Repr

structure Description where
  ns : Option Namespace
  decls : List Decl
deriving DecidableEq, Repr

/-! ## The recursive-descent parser (parser.cpp lines 244-665)

The C++ parser pulls tokens lazily from the lexer with one- and two-token
lookahead; we model `peek` by running `nextToken` without keeping the
returned state, so lexer errors surface exactly when the parser requests
the offending token, as in the original.  The unbounded `while` loops are
given explicit fuel; `parse` supplies more fuel than any input of its
length can consume, so the artificial fuel error (file "", line 0) is
unreachable from `parse`.  `Parser::parseDouble_` converts the numeric
lexeme with `strtod` (rejecting non-finite results); no claim below
depends on the numeric value, so `Value.num` keeps the lexeme. -/

def fuelErr : DescError := ⟨"", 0, 0, "model: out of fuel"⟩

def expectTok (filename : String) (k : TokKind) (msg : String) (st : LexState) :
    Except DescError (Token × LexState) := do
  let (t, st') ← nextToken st
  if t.kind == k then pure (t, st')
  else Except.error ⟨filename, t.line, t.col, msg⟩

def matchTok (k : TokKind) (st : LexState) : Except DescError (Bool × LexState) := do
  let (t, st') ← nextToken st
  if t.kind == k then pure (true, st') else pure (false, st)

def isKeyword (kw : String) (st : LexState) : Except DescError Bool := do
  let (t, _) ← nextToken st
  pure (t.kind == TokKind.ident && t.lexeme == kw)

def expectKeyword (filename kw : String) (st : LexState) :
    Except DescError (Token × LexState) := do
  let (t, st') ← nextToken st
  if t.kind == TokKind.ident && t.lexeme == kw then pure (t, st')
  else Except.error ⟨filename, t.line, t.col, "Expected keyword '" ++ kw ++ "'"⟩

def parseValue (filename : String) (st : LexState) :
    Except DescError (Value × LexState) := do
  let (t, st') ← nextToken st
  if t.kind == TokKind.number then
    pure (Value.num t.lexeme, st')
  else if t.kind == TokKind.strTok then do
    let s ← unquote filename t
    pure (Value.str s, st')
  else if t.kind == TokKind.ident && (t.lexeme == "true" || t.lexeme == "false") then
    pure (Value.boolean (t.lexeme == "true"), st')
  else
    Except.error ⟨filename, t.line, t.col, "Expected value (number, string, or boolean)"⟩

/-- Two-token lookahead `peek().kind == Ident && peek(1).kind == Equals`
that decides whether a keyword property starts here. -/
def isKwStart (st : LexState) : Except DescError Bool := do
  let (t1, st1) ← nextToken st
  let (t2, _) ← nextToken st1
  pure (t1.kind == TokKind.ident && t2.kind == TokKind.equals)

def parseKwProp (filename : String) (st : LexState) :
    Except DescError (KeywordArg × LexState) := do
  let (nameTok, st1) ← expectTok filename TokKind.ident "Expected property name" st
  let (_, st2) ← expectTok filename TokKind.equals "Expected '=' in keyword property" st1
  let (v, st3) ← parseValue filename st2
  pure (⟨nameTok.lexeme, v⟩, st3)

def parseKwLoop (filename : String) :
    Nat → Properties → LexState → Except DescError (Properties × LexState)
  | 0, _, _ => Except.error fuelErr
  | fuel + 1, props, st => do
      let (matched, st1) ← matchTok TokKind.colon st
      if matched then do
        let kwS ← isKwStart st1
        if kwS then do
          let (kw, st2) ← parseKwProp filename st1
          parseKwLoop filename fuel ⟨props.args, props.kwargs ++ [kw]⟩ st2
        else do
          let (t, _) ← nextToken st1
          Except.error ⟨filename, t.line, t.col,
            "Expected keyword property name=value after ':'"⟩
      else pure (props, st)

def parsePosLoop (filename : String) :
    Nat → Properties → LexState → Except DescError (Properties × LexState)
  | 0, _, _ => Except.error fuelErr
  | fuel + 1, props, st => do
      let (matched, st1) ← matchTok TokKind.colon st
      if matched then do
        let kwS ← isKwStart st1
        if kwS then do
          let (kw, st2) ← parseKwProp filename st1
          parseKwLoop filename fuel ⟨props.args, props.kwargs ++ [kw]⟩ st2
        else do
          let (v, st2) ← parseValue filename st1
          parsePosLoop filename fuel ⟨props.args ++ [v], props.kwargs⟩ st2
      else pure (props, st)

def parseProperties (fuel : Nat) (filename : String) (st : LexState) :
    Except DescError (Properties × LexState) := do
  let (_, st1) ← expectTok filename TokKind.lparen
    "Expected '(' to start property list" st
  let kwS ← isKwStart st1
  if kwS then do
    let (kw, st2) ← parseKwProp filename st1
    let (props, st3) ← parseKwLoop filename fuel ⟨[], [kw]⟩ st2
    let (_, st4) ← expectTok filename TokKind.rparen
      "Expected ')' to end property list" st3
    pure (props, st4)
  else do
    let (t, _) ← nextToken st1
    if t.kind == TokKind.rparen then do
      let (_, st2) ← expectTok filename TokKind.rparen
        "Expected ')' to end property list" st1
      pure (⟨[], []⟩, st2)
    else do
      let (v, st2) ← parseValue filename st1
      let (props, st3) ← parsePosLoop filename fuel ⟨[v], []⟩ st2
      let (_, st4) ← expectTok filename TokKind.rparen
        "Expected ')' to end property list" st3
      pure (props, st4)

/-- The integer check in parseOptionalArray_ (parser.cpp lines 425-439):
reject a leading sign, then parse with `std::from_chars`, which must
consume the whole lexeme.  `from_chars` succeeds exactly on a nonempty
all-digit lexeme (overflow of `size_t` is not modelled — the length is a
`Nat`). -/
def natOfDigits (l : List Char) : Nat :=
  l.foldl (fun acc c => acc * 10 + (c.toNat - 48)) 0

def parseArrayLen (filename : String) (t : Token) : Except DescError Nat :=
  let sv := t.lexeme.data
  if (match sv with | c :: _ => c == '+' || c == '-' | [] => false) then
    Except.error ⟨filename, t.line, t.col, "Array length must be a non-negative integer"⟩
  else if (sv.takeWhile Char.isDigit).length = sv.length ∧ sv ≠ [] then
    Except.ok (natOfDigits sv)
  else
    Except.error ⟨filename, t.line, t.col, "Array length must be an integer"⟩

def parseOptionalArray (filename : String) (st : LexState) :
    Except DescError (Option FieldArray × LexState) := do
  let (matched, st1) ← matchTok TokKind.lbrack st
  if !matched then pure (none, st)
  else do
    let (t, _) ← nextToken st1
    if t.kind == TokKind.number then do
      let (t2, st2) ← nextToken st1
      let len ← parseArrayLen filename t2
      let (_, st3) ← expectTok filename TokKind.rbrack
        "Expected ']' after array specifier" st2
      pure (some ⟨some len⟩, st3)
    else do
      let (_, st2) ← expectTok filename TokKind.rbrack
        "Expected ']' after array specifier" st1
      pure (some ⟨none⟩, st2)

def parseField (fuel : Nat) (filename : String) (st : LexState) :
    Except DescError (Field × LexState) := do
  let (typeTok, st1) ← expectTok filename TokKind.ident "Expected field type" st
  let (arr, st2) ← parseOptionalArray filename st1
  let (nameTok, st3) ← expectTok filename TokKind.ident "Expected field name" st2
  let (t, _) ← nextToken st3
  let (props, st4) ←
    if t.kind == TokKind.lparen then do
      let (p, s) ← parseProperties fuel filename st3
      pure ((some p : Option Properties), s)
    else pure ((none : Option Properties), st3)
  let (matched, st5) ← matchTok TokKind.equals st4
  let (dv, st6) ←
    if matched then do
      let (v, s) ← parseValue filename st5
      pure ((some v : Option Value), s)
    else pure ((none : Option Value), st5)
  let (_, st7) ← expectTok filename TokKind.semicolon "Expected ';' after field" st6
  pure (⟨typeTok.lexeme, arr, nameTok.lexeme, props, dv⟩, st7)

def parseFieldsLoop (filename : String) :
    Nat → List Field → LexState → Except DescError (List Field × LexState)
  | 0, _, _ => Except.error fuelErr
  | fuel + 1, acc, st => do
      let (t, _) ← nextToken st
      if t.kind == TokKind.rbrace then pure (acc, st)
      else if t.kind == TokKind.tEnd then
        Except.error ⟨filename, t.line, t.col, "Unterminated field list; expected '\x7d'"⟩
      else do
        let (f, st1) ← parseField fuel filename st
        parseFieldsLoop filename fuel (acc ++ [f]) st1

def parseFieldList (fuel : Nat) (filename : String) (st : LexState) :
    Except DescError (FieldList × LexState) := do
  let (_, st1) ← expectTok filename TokKind.lbrace
    "Expected '\x7b' to start field list" st
  let (fs, st2) ← parseFieldsLoop filename fuel [] st1
  let (_, st3) ← expectTok filename TokKind.rbrace
    "Expected '\x7d' to end field list" st2
  pure (⟨fs⟩, st3)

def parseEnumValsLoop (filename : String) :
    Nat → List EnumerateValue → LexState →
      Except DescError (List EnumerateValue × LexState)
  | 0, _, _ => Except.error fuelErr
  | fuel + 1, acc, st => do
      let (matched, st1) ← matchTok TokKind.comma st
      if !matched then pure (acc, st)
      else do
        let (t, st2) ← expectTok filename TokKind.ident "Expected enumerate value" st1
        parseEnumValsLoop filename fuel (acc ++ [⟨t.lexeme⟩]) st2

def parseEnumerate (fuel : Nat) (filename : String) (st : LexState) :
    Except DescError (Enumerate × LexState) := do
  let (_, st1) ← expectKeyword filename "enumerate" st
  let (nameTok, st2) ← expectTok filename TokKind.ident "Expected enumerate name" st1
  let (_, st3) ← expectTok filename TokKind.lbrace "Expected '\x7b' after enumerate name" st2
  let (t, _) ← nextToken st3
  let (vals, st4) ←
    if t.kind == TokKind.rbrace then
      pure (([] : List EnumerateValue), st3)
    else do
      let (v0, s0) ← expectTok filename TokKind.ident "Expected enumerate value" st3
      parseEnumValsLoop filename fuel [⟨v0.lexeme⟩] s0
  let (_, st5) ← expectTok filename TokKind.rbrace "Expected '\x7d' to end enumerate" st4
  pure (⟨nameTok.lexeme, vals⟩, st5)

def parseInclude (fuel : Nat) (filename : String) (st : LexState) :
    Except DescError (Include × LexState) := do
  let (_, st1) ← expectKeyword filename "include" st
  let (fileTok, st2) ← expectTok filename TokKind.strTok
    "Expected quoted filename after 'include'" st1
  let nm ← unquote filename fileTok
  let (t, _) ← nextToken st2
  let (props, st3) ←
    if t.kind == TokKind.lparen then do
      let (p, s) ← parseProperties fuel filename st2
      pure ((some p : Option Properties), s)
    else pure ((none : Option Properties), st2)
  let (_, st4) ← expectTok filename TokKind.semicolon "Expected ';' after include" st3
  pure (⟨nm, props⟩, st4)

def parseImportDecl (filename : String) (st : LexState) :
    Except DescError (Import × LexState) := do
  let (_, st1) ← expectKeyword filename "import" st
  let (fileTok, st2) ← expectTok filename TokKind.strTok
    "Expected quoted filename after 'import'" st1
  let nm ← unquote filename fileTok
  let (_, st3) ← expectTok filename TokKind.semicolon "Expected ';' after import" st2
  pure (⟨nm⟩, st3)

def parseStringsLoop (filename : String) :
    Nat → List String → LexState → Except DescError (List String × LexState)
  | 0, _, _ => Except.error fuelErr
  | fuel + 1, acc, st => do
      let (t, _) ← nextToken st
      if t.kind == TokKind.strTok then do
        let (t2, st1) ← nextToken st
        let s ← unquote filename t2
        parseStringsLoop filename fuel (acc ++ [s]) st1
      else pure (acc, st)

def parseExternalLanguage (fuel : Nat) (filename : String) (st : LexState) :
    Except DescError (ExternalLanguage × LexState) := do
  let (_, st1) ← expectKeyword filename "language" st
  let (langTok, st2) ← expectTok filename TokKind.ident
    "Expected language name after 'language'" st1
  let (contTok, st3) ← expectTok filename TokKind.strTok
    "Expected container string after language name" st2
  let cont ← unquote filename contTok
  let fromKw ← isKeyword "from" st3
  let (sources, st4) ←
    if fromKw then do
      let (_, s0) ← nextToken st3
      let (t, _) ← nextToken s0
      if !(t.kind == TokKind.strTok) then
        Except.error ⟨filename, t.line, t.col,
          "Expected at least one source string after 'from'"⟩
      else parseStringsLoop filename fuel [] s0
    else pure (([] : List String), st3)
  let defKw ← isKeyword "default" st4
  let (dflt, st5) ←
    if defKw then do
      let (_, s0) ← nextToken st4
      let (d, s1) ← expectTok filename TokKind.strTok
        "Expected default string after 'default'" s0
      let ds ← unquote filename d
      pure ((some ds : Option String), s1)
    else pure ((none : Option String), st4)
  let readKw ← isKeyword "read" st5
  let (rw, st6) ←
    if readKw then do
      let (_, s0) ← nextToken st5
      let (r, s1) ← expectTok filename TokKind.strTok
        "Expected read string after 'read'" s0
      let rs ← unquote filename r
      let (_, s2) ← expectKeyword filename "write" s1
      let (w, s3) ← expectTok filename TokKind.strTok
        "Expected write string after 'write'" s2
      let ws ← unquote filename w
      pure (((some rs, some ws) : Option String × Option String), s3)
    else pure (((none, none) : Option String × Option String), st5)
  let (_, st7) ← expectTok filename TokKind.semicolon
    "Expected ';' after language entry" st6
  pure (⟨langTok.lexeme, cont, sources, dflt, rw.1, rw.2⟩, st7)

def parseExtLangsLoop (filename : String) :
    Nat → List ExternalLanguage → LexState →
      Except DescError (List ExternalLanguage × LexState)
  | 0, _, _ => Except.error fuelErr
  | fuel + 1, acc, st => do
      let (t, _) ← nextToken st
      if t.kind == TokKind.rparen then pure (acc, st)
      else if t.kind == TokKind.tEnd then
        Except.error ⟨filename, t.line, t.col,
          "Unterminated external language list; expected ')'"⟩
      else do
        let langKw ← isKeyword "language" st
        if !langKw then
          Except.error ⟨filename, t.line, t.col,
            "Expected 'language' entry inside external language list"⟩
        else do
          let (el, st1) ← parseExternalLanguage fuel filename st
          parseExtLangsLoop filename fuel (acc ++ [el]) st1

def parseExternal (fuel : Nat) (filename : String) (st : LexState) :
    Except DescError (External × LexState) := do
  let (_, st1) ← expectKeyword filename "external" st
  let (nameTok, st2) ← expectTok filename TokKind.ident
    "Expected external structure name" st1
  let (_, st3) ← expectTok filename TokKind.lparen
    "Expected '(' to start external language list" st2
  let (langs, st4) ← parseExtLangsLoop filename fuel [] st3
  let (_, st5) ← expectTok filename TokKind.rparen
    "Expected ')' to end external language list" st4
  let (_, st6) ← expectTok filename TokKind.semicolon "Expected ';' after external" st5
  pure (⟨nameTok.lexeme, langs⟩, st6)

def parseStructure (fuel : Nat) (filename : String) (st : LexState) :
    Except DescError (Structure × LexState) := do
  let (_, st1) ← expectKeyword filename "structure" st
  let (nameTok, st2) ← expectTok filename TokKind.ident "Expected structure name" st1
  let (fl, st3) ← parseFieldList fuel filename st2
  pure (⟨nameTok.lexeme, fl⟩, st3)

def parseMessage (fuel : Nat) (filename : String) (st : LexState) :
    Except DescError (Message × LexState) := do
  let (_, st1) ← expectKeyword filename "message" st
  let (nameTok, st2) ← expectTok filename TokKind.ident "Expected message name" st1
  let (fl, st3) ← parseFieldList fuel filename st2
  pure (⟨nameTok.lexeme, fl⟩, st3)

def parseNsLoop (filename : String) :
    Nat → String → LexState → Except DescError (String × LexState)
  | 0, _, _ => Except.error fuelErr
  | fuel + 1, acc, st => do
      let (matched, st1) ← matchTok TokKind.dot st
      if !matched then pure (acc, st)
      else do
        let (t, st2) ← expectTok filename TokKind.ident
          "Expected namespace segment after '.'" st1
        parseNsLoop filename fuel (acc ++ "." ++ t.lexeme) st2

def parseNamespace (fuel : Nat) (filename : String) (st : LexState) :
    Except DescError (Namespace × LexState) := do
  let (_, st1) ← expectKeyword filename "namespace" st
  let (first, st2) ← expectTok filename TokKind.ident "Expected namespace name" st1
  let (name, st3) ← parseNsLoop filename fuel first.lexeme st2
  let (_, st4) ← expectTok filename TokKind.semicolon "Expected ';' after namespace" st3
  pure (⟨name⟩, st4)

def parseDecl (fuel : Nat) (filename : String) (st : LexState) :
    Except DescError (Decl × LexState) := do
  let (t, _) ← nextToken st
  if !(t.kind == TokKind.ident) then
    Except.error ⟨filename, t.line, t.col, "Expected a declaration keyword"⟩
  else if t.lexeme == "enumerate" then do
    let (e, st1) ← parseEnumerate fuel filename st
    pure (Decl.enum e, st1)
  else if t.lexeme == "include" then do
    let (i, st1) ← parseInclude fuel filename st
    pure (Decl.incl i, st1)
  else if t.lexeme == "import" then do
    let (i, st1) ← parseImportDecl filename st
    pure (Decl.imprt i, st1)
  else if t.lexeme == "external" then do
    let (e, st1) ← parseExternal fuel filename st
    pure (Decl.ext e, st1)
  else if t.lexeme == "structure" then do
    let (s, st1) ← parseStructure fuel filename st
    pure (Decl.struc s, st1)
  else if t.lexeme == "message" then do
    let (m, st1) ← parseMessage fuel filename st
    pure (Decl.msg m, st1)
  else
    Except.error ⟨filename, t.line, t.col,
      "Unknown declaration keyword: " ++ t.lexeme⟩

def parseDeclsLoop (filename : String) :
    Nat → List Decl → LexState → Except DescError (List Decl × LexState)
  | 0, _, _ => Except.error fuelErr
  | fuel + 1, acc, st => do
      let (t, _) ← nextToken st
      if t.kind == TokKind.tEnd then pure (acc, st)
      else do
        let (d, st1) ← parseDecl fuel filename st
        parseDeclsLoop filename fuel (acc ++ [d]) st1

def parseDescription (fuel : Nat) (filename : String) (st : LexState) :
    Except DescError (Description × LexState) := do
  let nsKw ← isKeyword "namespace" st
  let (ns, st1) ←
    if nsKw then do
      let (n, s) ← parseNamespace fuel filename st
      pure ((some n : Option Namespace), s)
    else pure ((none : Option Namespace), st)
  let (decls, st2) ← parseDeclsLoop filename fuel [] st1
  let (_, st3) ← expectTok filename TokKind.tEnd "Expected end of input" st2
  pure (⟨ns, decls⟩, st3)

/-- parse (parser.cpp lines 662-665): run the parser over the text with
the given file name. -/
def parse (text : String) (filename : String) : Except DescError Description :=
  (parseDescription (4 * text.length + 16) filename ⟨text.data, 1, 1⟩).map Prod.fst

/-- C6 counterexample: in the description `import "a\qb";` the unknown
escape `\q` is decoded to the bare character `q` — the parsed string
value is `aqb`, not the claimed verbatim `a\qb`. -/
theorem parse_unknown_escape_drops_backslash :
    parse ("import \"a\\qb\";") ("f") =
      Except.ok ⟨none, [Decl.imprt ⟨"aqb"⟩]⟩ ∧
    ("aqb" : String) ≠ "a\\qb" :=
  ⟨rfl, by decide⟩

/-- C7 counterexample: parsing a description whose string literal is
unterminated throws a DescriptionError that carries the line and column
of the literal but the fixed placeholder file "<input>", not the file
name `g.msg` that was passed to parse. -/
theorem parse_unterminated_string_placeholder_file :
    parse ("structure S \x7b\n  int32 a;\n  \"bad") ("g.msg") =
      Except.error ⟨"<input>", 3, 3, "Unterminated string literal"⟩ ∧
    ("<input>" : String) ≠ "g.msg" :=
  ⟨rfl, by decide⟩

/-! ## Array fields in the generated code (claim C8)

`CppGenerator::getFieldType_` (modelled above as `getFieldType`) honours
the declared array length; the Python generator tests only
`field.array.has_value()` and never reads `field.array->length`
(`isFixedArray_` exists but is never called), so the emitted Python
treats every array as a variable-length list. -/

/-- PythonGenerator::formatValue_ — the double case prints through an
`ostringstream`, abstracted as `formatNum` on the stored lexeme. -/
def pyFormatValue (formatNum : String → String) : Value → String
  | Value.num lx => formatNum lx
  | Value.str s => "\"" ++ s ++ "\""
  | Value.boolean b => if b then "True" else "False"

/-- PythonGenerator::getDefaultValue_ — the registry lookup
`meta ? meta->getDefault("python") : "None"` is abstracted as
`registryDefault`. -/
def pyDefaultValue (registryDefault : String → String)
    (formatNum : String → String) (f : Field) : String :=
  match f.default_value with
  | some v => pyFormatValue formatNum v
  | none => if f.array.isSome then "None" else registryDefault f.type

/-- The constructor body emitted for one field
(PythonGenerator::generateStructs_ lines 903-925). -/
def pyCtorBodyLines (pytype registryDefault : String → String) (f : Field) : String :=
  if f.array.isSome then
    "        if " ++ f.name ++ " is None:\n" ++
    "            self." ++ f.name ++ " = []\n" ++
    "        else:\n" ++
    "            self." ++ f.name ++ " = " ++ f.name ++ "\n"
  else if f.default_value.isNone then
    if registryDefault f.type == "None" then
      "        if " ++ f.name ++ " is None:\n" ++
      "            self." ++ f.name ++ " = " ++ pytype f.type ++ "()\n" ++
      "        else:\n" ++
      "            self." ++ f.name ++ " = " ++ f.name ++ "\n"
    else
      "        self." ++ f.name ++ " = " ++ f.name ++ "\n"
  else
    "        self." ++ f.name ++ " = " ++ f.name ++ "\n"

/-- The `read` method line emitted for one field
(PythonGenerator::generateStructs_ lines 929-941). -/
def pyReadLine (pytype : String → String) (f : Field) : String :=
  if f.array.isSome then
    "        dst." ++ f.name ++ " = routio.readList(" ++ pytype f.type ++ ", reader)\n"
  else
    "        dst." ++ f.name ++ " = routio.readType(" ++ pytype f.type ++ ", reader)\n"

/-- The `write` method line emitted for one field
(PythonGenerator::generateStructs_ lines 944-955). -/
def pyWriteLine (pytype : String → String) (f : Field) : String :=
  if f.array.isSome then
    "        routio.writeList(" ++ pytype f.type ++ ", writer, obj." ++ f.name ++ ")\n"
  else
    "        routio.writeType(" ++ pytype f.type ++ ", writer, obj." ++ f.name ++ ")\n"

/-- Everything the Python generator emits that depends on one field:
constructor parameter, constructor body, read line, write line. -/
def pyFieldCode (pytype registryDefault formatNum : String → String) (f : Field) :
    String × String × String × String :=
  (",\n        " ++ f.name ++ " = " ++ pyDefaultValue registryDefault formatNum f,
   pyCtorBodyLines pytype registryDefault f,
   pyReadLine pytype f,
   pyWriteLine pytype f)

/-- C8 counterexample: the Python code generated for a field declared
`int32[3] a;` is byte-identical to the code generated for `int32[] a;` —
the declared length 3 is ignored, so the emitted Python cannot realize a
fixed-length sequence of 3 elements (the C++ generator, by contrast,
distinguishes the two). -/
theorem python_ignores_declared_length :
    pyFieldCode (fun t => t) (fun _ => "None") (fun lx => lx)
        ⟨"int32", some ⟨some 3⟩, "a", none, none⟩ =
      pyFieldCode (fun t => t) (fun _ => "None") (fun lx => lx)
        ⟨"int32", some ⟨none⟩, "a", none, none⟩ ∧
    getFieldType (fun t => t) ⟨"int32", some ⟨some 3⟩, "a", none, none⟩ ≠
      getFieldType (fun t => t) ⟨"int32", some ⟨none⟩, "a", none, none⟩ :=
  ⟨rfl, by decide⟩

/-- C8 amended: in the generated C++ a declared length N produces the
fixed-size array type `base[N]` and an omitted length produces
`std::vector<base>`; the generated Python treats every array field as a
variable-length list regardless of any declared length; and the parser
accepts only an unsigned integer literal as the declared length (its
value is the decimal reading of the digits). -/
theorem array_length_generation :
    (∀ (container : String → String) (f : Field) (n : Nat),
      f.array = some ⟨some n⟩ →
      getFieldType container f = container f.type ++ "[" ++ toString n ++ "]") ∧
    (∀ (container : String → String) (f : Field), f.array = some ⟨none⟩ →
      getFieldType container f = "std::vector<" ++ container f.type ++ ">") ∧
    (∀ (pytype registryDefault formatNum : String → String) (f : Field)
      (a₁ a₂ : FieldArray),
      pyFieldCode pytype registryDefault formatNum
          ⟨f.type, some a₁, f.name, f.properties, f.default_value⟩ =
        pyFieldCode pytype registryDefault formatNum
          ⟨f.type, some a₂, f.name, f.properties, f.default_value⟩) ∧
    (∀ (filename : String) (t : Token) (n : Nat),
      parseArrayLen filename t = Except.ok n →
      t.lexeme.data ≠ [] ∧ (∀ c ∈ t.lexeme.data, Char.isDigit c) ∧
        n = natOfDigits t.lexeme.data) := by
  refine ⟨?_, ?_, ?_, ?_⟩
  · intro container f n h
    simp [getFieldType, h]
  · intro container f h
    simp [getFieldType, h]
  · intro pytype registryDefault formatNum f a₁ a₂
    simp [pyFieldCode, pyDefaultValue, pyCtorBodyLines, pyReadLine, pyWriteLine]
  · intro filename t n h
    rw [parseArrayLen] at h
    split at h
    · cases h
    · split at h
      · rename_i hcond
        obtain ⟨hlen, hne⟩ := hcond
        injection h with h'
        have heq : t.lexeme.data.takeWhile Char.isDigit = t.lexeme.data :=
          (List.takeWhile_prefix Char.isDigit).eq_of_length hlen
        refine ⟨hne, ?_, h'.symm⟩
        intro c hc
        rw [← heq] at hc
        exact List.mem_takeWhile_imp hc
      · cases h

/-- Witness for C8 amended at concrete inputs. -/
theorem array_length_generation_witness :
    getFieldType (fun t => t) ⟨"int32", some ⟨some 5⟩, "xs", none, none⟩ =
      ("int32" : String) ++ "[" ++ toString 5 ++ "]" ∧
    getFieldType (fun t => t) ⟨"int32", some ⟨none⟩, "ys", none, none⟩ =
      "std::vector<" ++ ("int32" : String) ++ ">" ∧
    (("12" : String).data ≠ [] ∧ (∀ c ∈ ("12" : String).data, Char.isDigit c) ∧
      12 = natOfDigits ("12" : String).data) :=
  ⟨array_length_generation.1 (fun t => t) ⟨"int32", some ⟨some 5⟩, "xs", none, none⟩ 5 rfl,
   array_length_generation.2.1 (fun t => t) ⟨"int32", some ⟨none⟩, "ys", none, none⟩ rfl,
   array_length_generation.2.2.2 ("f") ⟨TokKind.number, "12", 1, 1⟩ 12 rfl⟩

end Routio
